import Mathlib

/-!
Verification of the commentary-analysis engine of `soccer-highlights`
(`src/app.py`, class `SoccerAnalyzer`).

The analyzer is a pipeline of regex scans over the input text
(`re.finditer` with fixed patterns), a proximity correlator, and a
formatter.  We shallowly embed the relevant fragment of Python's `re`
semantics: the source only uses literals, character classes (`\d`, `\s`,
`\w`, `[A-Z]`, `[a-z]`), alternation (leftmost-alternative preference),
greedy counted repetition of a class (`{1,2}`, `+`, `*`, `?`), and the
word-boundary assertion `\b`.  `re.finditer` is leftmost, non-overlapping
scanning.  Texts are lists of characters, offsets are naturals (Python
offsets here are always non-negative).  Character classes are the ASCII
readings (every input in the repository's own examples is ASCII).
-/

namespace SoccerHighlights

/-- Python's `\w` (ASCII reading): letters, digits, underscore. -/
def isWordChar (c : Char) : Bool := c.isAlphanum || c == '_'

/-- Python's `\d` (ASCII reading). -/
def isDigitChar (c : Char) : Bool := c.isDigit

/-- Python's `\s` (ASCII reading): space, tab, newline, CR, FF, VT. -/
def isSpaceChar (c : Char) : Bool :=
  c == ' ' || c == '\t' || c == '\n' || c == '\r' || c == '\x0b' || c == '\x0c'

/-- Class `[A-Z]` (the heuristic entity pattern is compiled without flags). -/
def isUpperAZ (c : Char) : Bool := 'A' ≤ c && c ≤ 'Z'

/-- Class `[a-z]`. -/
def isLowerAZ (c : Char) : Bool := 'a' ≤ c && c ≤ 'z'

/-- Character comparison; `ci = true` models `re.IGNORECASE` (ASCII case
folding, which is exact for every literal in the source's patterns). -/
def charEq (ci : Bool) (p c : Char) : Bool :=
  if ci then p.toLower == c.toLower else p == c

/-- Is the character at absolute position `i` a word character
(`false` beyond the ends of the text, as in Python)? -/
def isWordAt (text : List Char) (i : Nat) : Bool :=
  match text.get? i with
  | some c => isWordChar c
  | none => false

/-- Python's `\b`: exactly one of the two neighbouring positions holds a
word character. -/
def wordBoundary (text : List Char) (pos : Nat) : Bool :=
  (decide (pos ≠ 0) && isWordAt text (pos - 1)) != isWordAt text pos

/-- Regex fragment used by `SoccerAnalyzer`.  Quantifiers in the source
only ever apply to single characters / character classes, which is what
`repR`, `starR`, `plusR` provide. -/
inductive Rx : Type where
  | epsR : Rx
  | chrR (c : Char) : Rx
  | clsR (p : Char → Bool) : Rx
  | seqR (a b : Rx) : Rx
  | altR (a b : Rx) : Rx
  | optR (a : Rx) : Rx
  | repR (p : Char → Bool) (lo hi : Nat) : Rx
  | starR (p : Char → Bool) : Rx
  | plusR (p : Char → Bool) : Rx
  | wbR : Rx

/-- Length of the maximal `p`-run at the head of a character list. -/
def takeRun (p : Char → Bool) : List Char → Nat
  | [] => 0
  | c :: cs => if p c then takeRun p cs + 1 else 0

/-- Length of the maximal `p`-run of `text` starting at `pos`. -/
def clsRun (p : Char → Bool) (text : List Char) (pos : Nat) : Nat :=
  takeRun p (text.drop pos)

/-- All end positions of matches of `r` at position `pos`, in Python's
backtracking preference order (greedy quantifiers, leftmost alternative
first).  The head, when it exists, is the end position `re` reports. -/
def ends (ci : Bool) (text : List Char) : Rx → Nat → List Nat
  | .epsR, pos => [pos]
  | .chrR c, pos =>
    match text.get? pos with
    | some d => if charEq ci c d then [pos + 1] else []
    | none => []
  | .clsR p, pos =>
    match text.get? pos with
    | some d => if p d then [pos + 1] else []
    | none => []
  | .seqR a b, pos => (ends ci text a pos).flatMap (ends ci text b)
  | .altR a b, pos => ends ci text a pos ++ ends ci text b pos
  | .optR a, pos => ends ci text a pos ++ [pos]
  | .repR p lo hi, pos =>
    let r := min (clsRun p text pos) hi
    if r < lo then [] else (List.range (r + 1 - lo)).map (fun i => pos + (r - i))
  | .starR p, pos =>
    let r := clsRun p text pos
    (List.range (r + 1)).map (fun i => pos + (r - i))
  | .plusR p, pos =>
    let r := clsRun p text pos
    if r = 0 then [] else (List.range r).map (fun i => pos + (r - i))
  | .wbR, pos => if wordBoundary text pos then [pos] else []

/-- The end position of the match of `r` at `pos`, if any (Python's
preferred match). -/
def firstEnd (ci : Bool) (r : Rx) (text : List Char) (pos : Nat) : Option Nat :=
  (ends ci text r pos).head?

/-- The `re.finditer` scanning loop: try each position from left to right,
emit the match found there and resume at its end (or one past a
zero-width match).  `fuel` bounds the recursion; the scan position
strictly increases, so `text.length + 2` fuel always suffices. -/
def findIterAux (ci : Bool) (r : Rx) (text : List Char) :
    Nat → Nat → List (Nat × Nat)
  | 0, _ => []
  | fuel + 1, pos =>
    if pos > text.length then []
    else
      match firstEnd ci r text pos with
      | some e => (pos, e) :: findIterAux ci r text fuel (if pos < e then e else pos + 1)
      | none => findIterAux ci r text fuel (pos + 1)

/-- The list of `(start, end)` spans `re.finditer(pattern, text)` yields. -/
def findIter (ci : Bool) (r : Rx) (text : List Char) : List (Nat × Nat) :=
  findIterAux ci r text (text.length + 2) 0

/-- Slice `text[s:e]` as a string (what `match.group(0)` returns). -/
def sliceStr (text : List Char) (s e : Nat) : String :=
  String.mk ((text.drop s).take (e - s))

/-- Python's `str.strip()` on a character list. -/
def pyStrip (l : List Char) : List Char :=
  ((l.dropWhile isSpaceChar).reverse.dropWhile isSpaceChar).reverse

/-- Python's `str.lower()` (ASCII reading, matching `charEq`). -/
def pyLower (s : String) : String := String.mk (s.data.map Char.toLower)

/-! ## Pattern constructors -/

/-- A literal string (each character compared under the active case flag). -/
def litR (s : String) : Rx := s.data.foldr (fun c acc => .seqR (.chrR c) acc) .epsR

/-- Concatenation of a pattern list. -/
def catR (l : List Rx) : Rx := l.foldr .seqR .epsR

/-- Alternation `a|b|...`, preferring earlier alternatives as Python does. -/
def altsR : List Rx → Rx
  | [] => .clsR (fun _ => false)
  | [r] => r
  | r :: rs => .altR r (altsR rs)

/-- Class repetition `\d{lo,hi}`. -/
def dd (lo hi : Nat) : Rx := .repR isDigitChar lo hi

/-- Whitespace run `\s+`. -/
def wsPlus : Rx := .plusR isSpaceChar

/-- Optional `s?` (the optional plural marker the source's patterns use). -/
def optS : Rx := .optR (.chrR 's')

/-- The apostrophe character of the `45'` minute notation. -/
def apoChar : Char := Char.ofNat 39

/-! ## Data model (`app.py` dicts, as records)

An extractor match dict `{'raw'/'text', 'start', 'end', ...}` becomes a
record; `end` is a Lean keyword, so that field is called `endPos`.  The
unused `'groups'` entry of timestamp dicts (never read downstream) is
omitted. -/

/-- A timestamp occurrence (`extract_timestamps` dict). -/
structure TsOcc where
  raw : String
  start : Nat
  endPos : Nat
  deriving Repr, DecidableEq

/-- An event occurrence (`extract_events` dict). -/
structure EvOcc where
  type : String
  text : String
  start : Nat
  endPos : Nat
  deriving Repr, DecidableEq

/-- An entity occurrence (`extract_players_and_entities` dict). -/
structure EntOcc where
  text : String
  label : String
  start : Nat
  endPos : Nat
  deriving Repr, DecidableEq

/-- One aggregated record of `find_nearby_elements`. -/
structure NearbyResult where
  timestamp : String
  events : List EvOcc
  entities : List EntOcc
  context : String
  deriving Repr, DecidableEq

/-- One formatted row of `analyze_commentary`. -/
structure Row where
  Time : String
  Tags : String
  Context : String
  deriving Repr, DecidableEq

/-! ## The source's patterns (`SoccerAnalyzer.__init__`, app.py:1510-1593)

Each Lean term below is the literal translation of one Python regex
string; the order of list entries is the source's declaration order
(Python dicts iterate in insertion order). -/

/-- The `timestamp_patterns` list (app.py:1588-1593): MM:SS, HH:MM:SS, N', N min. -/
def tsPat1 : Rx := catR [.wbR, dd 1 2, .chrR ':', dd 2 2, .wbR]

def tsPat2 : Rx := catR [.wbR, dd 1 2, .chrR ':', dd 2 2, .chrR ':', dd 2 2, .wbR]

def tsPat3 : Rx := catR [.wbR, dd 1 3, .chrR apoChar]

def tsPat4 : Rx := catR [.wbR, dd 1 3, .starR isSpaceChar, litR "min", .wbR]

def timestamp_patterns : List Rx := [tsPat1, tsPat2, tsPat3, tsPat4]

/-- The dict `event_patterns_en` (app.py:1510-1525), one entry per event type in
declaration order; each right-hand side transcribes the Python regex. -/
def event_patterns_en : List (String × Rx) :=
  [ ("goal", catR [.wbR, altsR
      [ litR "goal"
      , catR [litR "score", optS]
      , litR "scored"
      , litR "scoring"
      , catR [litR "net", optS]
      , catR [litR "find", optS, wsPlus, litR "the", wsPlus, litR "net"]
      , catR [litR "back", wsPlus, litR "of", wsPlus, litR "the", wsPlus, litR "net"] ], .wbR])
  , ("assist", catR [.wbR, altsR
      [ litR "assist"
      , litR "assists"
      , litR "assisted"
      , catR [litR "set", optS, wsPlus, litR "up"]
      , catR [litR "crosse", optS]
      , catR [litR "passe", optS] ], .wbR])
  , ("yellow_card", catR [.wbR, altsR
      [ catR [litR "yellow", wsPlus, litR "card"]
      , litR "booked"
      , litR "cautioned"
      , litR "warning" ], .wbR])
  , ("red_card", catR [.wbR, altsR
      [ catR [litR "red", wsPlus, litR "card"]
      , catR [litR "sent", wsPlus, litR "off"]
      , litR "dismissed"
      , litR "ejected" ], .wbR])
  , ("substitution", catR [.wbR, altsR
      [ catR [litR "substitut", .plusR isWordChar]
      , catR [litR "sub", .plusR isWordChar]
      , catR [litR "replace", optS]
      , catR [litR "come", optS, wsPlus, litR "on"]
      , catR [litR "off", wsPlus, litR "for"] ], .wbR])
  , ("corner", catR [.wbR, altsR
      [ litR "corner"
      , catR [litR "corner", wsPlus, litR "kick"] ], .wbR])
  , ("free_kick", catR [.wbR, altsR
      [ catR [litR "free", wsPlus, litR "kick"]
      , catR [litR "direct", wsPlus, litR "kick"]
      , catR [litR "indirect", wsPlus, litR "kick"] ], .wbR])
  , ("penalty", catR [.wbR, altsR
      [ litR "penalty"
      , catR [litR "penalty", wsPlus, litR "kick"]
      , catR [litR "from", wsPlus, litR "the", wsPlus, litR "spot"] ], .wbR])
  , ("offside", catR [.wbR, altsR
      [ litR "offside"
      , catR [litR "offside", wsPlus, litR "trap"] ], .wbR])
  , ("foul", catR [.wbR, altsR
      [ litR "foul"
      , litR "fouled"
      , catR [litR "commit", optS, wsPlus, litR "a", wsPlus, litR "foul"] ], .wbR])
  , ("save", catR [.wbR, altsR
      [ litR "save"
      , catR [litR "save", optS]
      , litR "saved"
      , catR [litR "block", optS]
      , litR "stopped" ], .wbR])
  , ("shot", catR [.wbR, altsR
      [ litR "shot"
      , catR [litR "shoot", optS]
      , litR "shooting"
      , litR "attempt" ], .wbR])
  , ("header", catR [.wbR, altsR
      [ litR "header"
      , catR [litR "head", optS]
      , litR "heading" ], .wbR])
  , ("tackle", catR [.wbR, altsR
      [ litR "tackle"
      , catR [litR "tackle", optS]
      , litR "tackled" ], .wbR])
  ]

/-- The `common_player_names` list for `language='en'` (app.py:1549-1554). -/
def common_player_names_en : List String :=
  [ "Messi", "Ronaldo", "Neymar", "Mbappe", "Benzema", "Modric", "Ramos"
  , "Pique", "Iniesta", "Xavi", "Busquets", "Griezmann", "Haaland"
  , "Lewandowski", "Salah", "Kane", "Sterling", "De Bruyne", "Mahrez"
  , "Giroud", "Casemiro", "Kroos", "Bale", "Suarez", "Alba", "Ter Stegen" ]

/-- The `team_names` list for `language='en'` (app.py:1567-1571). -/
def team_names_en : List String :=
  [ "Barcelona", "Real Madrid", "PSG", "Manchester United", "Manchester City"
  , "Liverpool", "Chelsea", "Arsenal", "Tottenham", "Bayern Munich"
  , "Borussia Dortmund", "Juventus", "AC Milan", "Inter Milan", "Atletico Madrid" ]

/-- Pattern `r'\b' + re.escape(name) + r'\b'` (backslash-escaping is the identity
on the names above, which hold only letters and spaces). -/
def namePat (s : String) : Rx := catR [.wbR, litR s, .wbR]

/-- The capitalized-word heuristic `\b[A-Z][a-z]+(?:\s+[A-Z][a-z]+)?\b`
(app.py:1653), compiled without `re.IGNORECASE`. -/
def heurPat : Rx :=
  catR [.wbR, .clsR isUpperAZ, .plusR isLowerAZ,
        .optR (catR [wsPlus, .clsR isUpperAZ, .plusR isLowerAZ]), .wbR]

/-- The stop-list of capitalized sentence starters (app.py:1658). -/
def skipWords : List String :=
  ["Goal", "Card", "Free", "Corner", "Penalty", "The", "And", "But", "After"]

/-! ## Extractors (app.py:1585-1667) -/

/-- The timestamp dict built for one regex match (app.py:1599-1604). -/
def tsOccOf (text : List Char) (se : Nat × Nat) : TsOcc :=
  ⟨sliceStr text se.1 se.2, se.1, se.2⟩

/-- Method `SoccerAnalyzer.extract_timestamps` (app.py:1585-1606): the loop over
the four patterns appends each pattern's `finditer` results. -/
def extract_timestamps (text : List Char) : List TsOcc :=
  timestamp_patterns.foldl
    (fun acc r => acc ++ (findIter true r text).map (tsOccOf text)) []

/-- Method `SoccerAnalyzer.extract_events` (app.py:1608-1622): the loop over the
event-pattern dict appends each type's `finditer` results. -/
def extract_events (pats : List (String × Rx)) (text : List Char) : List EvOcc :=
  pats.foldl
    (fun acc p => acc ++ (findIter true p.2 text).map
      (fun se => ⟨p.1, sliceStr text se.1 se.2, se.1, se.2⟩)) []

/-- The occurrences of one known name in `text` (the inner loop body of
the first two tiers of `extract_players_and_entities`). -/
def nameOccs (label : String) (text : List Char) (n : String) : List EntOcc :=
  (findIter true (namePat n) text).map
    (fun se => ⟨sliceStr text se.1 se.2, label, se.1, se.2⟩)

/-- The capitalized-word candidates `(group(0), start, end)` of the
heuristic tier (app.py:1653-1655). -/
def heurCands (text : List Char) : List (String × Nat × Nat) :=
  (findIter false heurPat text).map (fun se => (sliceStr text se.1 se.2, se.1, se.2))

/-- The PERSON entity dict built for a kept heuristic candidate
(app.py:1660-1665). -/
def mkHeurEnt (c : String × Nat × Nat) : EntOcc := ⟨c.1, "PERSON", c.2.1, c.2.2⟩

/-- The heuristic-tier loop body (app.py:1656-1665): append the candidate
as a PERSON unless its text is in the stop-list or some already-collected
occurrence has case-insensitively equal text. -/
def heurStep (acc : List EntOcc) (c : String × Nat × Nat) : List EntOcc :=
  if c.1 ∈ skipWords ∨ ∃ ent ∈ acc, pyLower ent.text = pyLower c.1 then acc
  else acc ++ [mkHeurEnt c]

/-- Method `SoccerAnalyzer.extract_players_and_entities` (app.py:1624-1667):
known players, then known teams, then the heuristic tier, all appending
to one list. -/
def extract_players_and_entities (players teams : List String) (text : List Char) :
    List EntOcc :=
  let entities := players.foldl (fun acc n => acc ++ nameOccs "PERSON" text n) []
  let entities := teams.foldl (fun acc n => acc ++ nameOccs "ORG" text n) entities
  (heurCands text).foldl heurStep entities

/-! ## Proximity correlator and formatter (app.py:1669-1736) -/

/-- Distance `abs(a - b)` on Python ints, for the natural offsets involved. -/
def pyDist (a b : Nat) : Nat := max a b - min a b

/-- The body of the per-timestamp loop of `find_nearby_elements`
(app.py:1673-1701). -/
def nearbyFor (events : List EvOcc) (entities : List EntOcc) (text : List Char)
    (window : Nat) (ts : TsOcc) : NearbyResult :=
  let nearby_events := events.filter
    (fun ev => decide (pyDist ev.start ts.start ≤ window ∨ pyDist ev.endPos ts.endPos ≤ window))
  let nearby_entities := entities.filter
    (fun ent => decide (pyDist ent.start ts.start ≤ window ∨ pyDist ent.endPos ts.endPos ≤ window))
  let context_start := ts.start - window
  let context_end := min text.length (ts.endPos + window)
  let context := String.mk (pyStrip ((text.drop context_start).take (context_end - context_start)))
  ⟨ts.raw, nearby_events, nearby_entities, context⟩

/-- Method `SoccerAnalyzer.find_nearby_elements` (app.py:1669-1703).
`max(0, ts_start - window)` is the truncated natural subtraction. -/
def find_nearby_elements (timestamps : List TsOcc) (events : List EvOcc)
    (entities : List EntOcc) (text : List Char) (window : Nat) : List NearbyResult :=
  timestamps.map (nearbyFor events entities text window)

/-- The distinct elements of `xs` in first-appearance order; one possible
value of Python's `list(set(xs))`. -/
def dedupFirst (l : List String) : List String := go [] l where
  go (seen : List String) : List String → List String
    | [] => []
    | x :: xs => if x ∈ seen then go seen xs else x :: go (x :: seen) xs

/-- Holds when `ys` is a possible value of Python's `list(set(xs))`: the distinct
elements of `xs`, each exactly once, in some order.  CPython's iteration
order over a `set` of strings is hash-based (and hash-randomized), so the
embedding treats the order as nondeterministic. -/
def PySetList (xs ys : List String) : Prop :=
  ys.Nodup ∧ ∀ a, a ∈ ys ↔ a ∈ xs

/-- A function realizing `list(set(·))` for every argument. -/
def PySetFun (f : List String → List String) : Prop := ∀ xs, PySetList xs (f xs)

/-- The event-tag list of one formatted result
(`list(set([event['type'] for event in result['events']]))`, app.py:1721),
for the set ordering `f`. -/
def eventTypesOf (f : List String → List String) (r : NearbyResult) : List String :=
  f (r.events.map (·.type))

/-- The `player_names` list of one formatted result (app.py:1722). -/
def playerNamesOf (r : NearbyResult) : List String :=
  (r.entities.filter (fun ent => ent.label == "PERSON")).map (·.text)

/-- The `team_names` list of one formatted result (app.py:1723). -/
def teamNamesOf (r : NearbyResult) : List String :=
  (r.entities.filter (fun ent => ent.label == "ORG")).map (·.text)

/-- The `tags` list of one formatted result (app.py:1725-1728): event
types, then player names, then team names. -/
def tagsOf (f : List String → List String) (r : NearbyResult) : List String :=
  eventTypesOf f r ++ playerNamesOf r ++ teamNamesOf r

/-- One formatted row (app.py:1730-1734). -/
def formatRow (f : List String → List String) (r : NearbyResult) : Row :=
  let tags := tagsOf f r
  ⟨r.timestamp,
   if tags.isEmpty then "General mention" else String.intercalate ", " tags,
   if r.context.length > 100 then String.mk (r.context.data.take 100) ++ "..."
   else r.context⟩

/-- The `analysis_results` intermediate of `analyze_commentary` for the
English profile (app.py:1711-1716), with the default window 50. -/
def analysisResultsEn (text : String) : List NearbyResult :=
  find_nearby_elements (extract_timestamps text.data)
    (extract_events event_patterns_en text.data)
    (extract_players_and_entities common_player_names_en team_names_en text.data)
    text.data 50

/-- Method `SoccerAnalyzer.analyze_commentary` (app.py:1705-1736) for the English
profile, parametrized by the `list(set(·))` ordering `f`. -/
def analyzeEn (f : List String → List String) (text : String) : List Row :=
  if (pyStrip text.data).isEmpty then []
  else (analysisResultsEn text).map (formatRow f)

/-! ## Specification-side definitions

The two formatter clauses of the spec (§4.5), written from the spec's own
words, to be compared with `formatRow`. -/

/-- Modelled from the spec §4.5: `Tags` is the comma-joined concatenation
of (event tags, then player names, then team names), or the literal
string "General mention" if the concatenation is empty. -/
def specRowTags (eventTags playerNames teamNames : List String) : String :=
  let cat := eventTags ++ playerNames ++ teamNames
  if cat = [] then "General mention" else String.intercalate ", " cat

/-- Modelled from the spec §4.5: `Context` is the entry's context string,
truncated to 100 characters with a trailing ellipsis marker if longer,
else unchanged. -/
def specTruncate (s : String) : String :=
  if s.length ≤ 100 then s else String.mk (s.data.take 100) ++ "..."

/-! ## A specification of `re.finditer` scanning

`ScanSpec ci r text pos l` says: `l` is the list of leftmost,
non-overlapping matches of `r` in `text` at or after `pos`, in text
order — each listed span is the preferred match at its start position,
no position strictly between (or before) listed matches has any match,
and scanning resumes at each match's end. -/

/-- No position `p` with `lo ≤ p < hi` starts a match. -/
def NoMatchBetween (ci : Bool) (r : Rx) (text : List Char) (lo hi : Nat) : Prop :=
  ∀ p, lo ≤ p → p < hi → firstEnd ci r text p = none

inductive ScanSpec (ci : Bool) (r : Rx) (text : List Char) : Nat → List (Nat × Nat) → Prop where
  | nil (pos : Nat) :
      NoMatchBetween ci r text pos (text.length + 1) → ScanSpec ci r text pos []
  | cons (pos s e : Nat) (rest : List (Nat × Nat)) :
      pos ≤ s → s ≤ text.length → firstEnd ci r text s = some e →
      NoMatchBetween ci r text pos s →
      ScanSpec ci r text (if s < e then e else s + 1) rest →
      ScanSpec ci r text pos ((s, e) :: rest)

/-- Another possible `list(set(·))` ordering: reversed first-appearance
order (used to witness that the set order is not insertion order). -/
def revDedup (l : List String) : List String := (dedupFirst l).reverse

/-! ## Concrete inputs used by the claims -/

/-- The English end-to-end scenario input (spec §8). -/
def c1Text : String :=
  "23\x27 GOAL! Messi scores a brilliant goal after a perfect assist from Neymar\n45\x27 Yellow card for Sergio Ramos"

/-- The entity de-duplication scenario input (spec §8). -/
def messiText : String := "Messi scores. Later, Messi scores again."

/-- A small input whose matched-event insertion order is goal-then-shot. -/
def c2Text : String := "23\x27 goal shot"

/-- A text with consecutive colon-separated digit groups: the two
timestamp scans desynchronize on it. -/
def c10Text : String := "1:23:45:67:89:01"

/-- The first aggregated record the pipeline produces for `c1Text`
(timestamp `23'` at offsets 0-3; window 50 reaches offset 53 only). -/
def c1r1 : NearbyResult :=
  ⟨"23\x27",
   [⟨"goal", "GOAL", 4, 8⟩, ⟨"goal", "scores", 16, 22⟩, ⟨"goal", "goal", 35, 39⟩],
   [⟨"Messi", "PERSON", 10, 15⟩],
   "23\x27 GOAL! Messi scores a brilliant goal after a perfe"⟩

/-- The second aggregated record the pipeline produces for `c1Text`
(timestamp `45'` at offsets 75-78). -/
def c1r2 : NearbyResult :=
  ⟨"45\x27",
   [⟨"goal", "goal", 35, 39⟩, ⟨"assist", "assist", 56, 62⟩,
    ⟨"yellow_card", "Yellow card", 79, 90⟩],
   [⟨"Neymar", "PERSON", 68, 74⟩, ⟨"Ramos", "PERSON", 102, 107⟩,
    ⟨"Yellow", "PERSON", 79, 85⟩, ⟨"Sergio Ramos", "PERSON", 95, 107⟩],
   "brilliant goal after a perfect assist from Neymar\n45\x27 Yellow card for Sergio Ramos"⟩

/-- The single aggregated record the pipeline produces for `c2Text`:
its matched events are goal (offsets 4-8) then shot (offsets 9-13). -/
def c2Result : NearbyResult :=
  ⟨"23\x27", [⟨"goal", "goal", 4, 8⟩, ⟨"shot", "shot", 9, 13⟩], [], "23\x27 goal shot"⟩

/-- A timestamp occurrence at offsets 100-104 (window-boundary check). -/
def tsAt100 : TsOcc := ⟨"1:40", 100, 104⟩

/-- An event starting exactly 50 characters before `tsAt100`. -/
def evAt50 : EvOcc := ⟨"goal", "goal", 50, 54⟩

/-- An event starting 51 characters before `tsAt100`, whose end-boundary
comparison (|53 - 104| = 51) also fails. -/
def evAt49 : EvOcc := ⟨"goal", "goal", 49, 53⟩

/-! ## Infrastructure lemmas -/

theorem takeRun_le (p : Char → Bool) : ∀ l : List Char, takeRun p l ≤ l.length := by
  intro l
  induction l with
  | nil => simp [takeRun]
  | cons c cs ih =>
    rw [takeRun]
    simp only [List.length_cons]
    split <;> omega

theorem clsRun_le (p : Char → Bool) (text : List Char) (pos : Nat) :
    clsRun p text pos ≤ text.length - pos := by
  have h := takeRun_le p (text.drop pos)
  simpa [clsRun] using h

theorem ends_ge (ci : Bool) (text : List Char) :
    ∀ (r : Rx) (pos e : Nat), e ∈ ends ci text r pos → pos ≤ e := by
  intro r
  induction r with
  | epsR => intro pos e h; simp [ends] at h; omega
  | chrR c =>
    intro pos e h
    rw [ends] at h
    split at h
    · split at h <;> simp at h; omega
    · simp at h
  | clsR p =>
    intro pos e h
    rw [ends] at h
    split at h
    · split at h <;> simp at h; omega
    · simp at h
  | seqR a b iha ihb =>
    intro pos e h
    rw [ends] at h
    rw [List.mem_flatMap] at h
    obtain ⟨m, hm, he⟩ := h
    exact le_trans (iha pos m hm) (ihb m e he)
  | altR a b iha ihb =>
    intro pos e h
    rw [ends] at h
    rcases List.mem_append.1 h with h | h
    · exact iha pos e h
    · exact ihb pos e h
  | optR a iha =>
    intro pos e h
    rw [ends] at h
    rcases List.mem_append.1 h with h | h
    · exact iha pos e h
    · simp at h; omega
  | repR p lo hi =>
    intro pos e h
    rw [ends] at h
    split at h
    · simp at h
    · simp only [List.mem_map, List.mem_range] at h
      obtain ⟨i, _, rfl⟩ := h
      omega
  | starR p =>
    intro pos e h
    rw [ends] at h
    simp only [List.mem_map, List.mem_range] at h
    obtain ⟨i, _, rfl⟩ := h
    omega
  | plusR p =>
    intro pos e h
    rw [ends] at h
    split at h
    · simp at h
    · simp only [List.mem_map, List.mem_range] at h
      obtain ⟨i, _, rfl⟩ := h
      omega
  | wbR =>
    intro pos e h
    rw [ends] at h
    split at h <;> simp at h; omega

theorem ends_le (ci : Bool) (text : List Char) :
    ∀ (r : Rx) (pos e : Nat), pos ≤ text.length → e ∈ ends ci text r pos →
      e ≤ text.length := by
  intro r
  induction r with
  | epsR => intro pos e hp h; simp [ends] at h; omega
  | chrR c =>
    intro pos e hp h
    rw [ends] at h
    split at h
    · next d hd =>
      have hlt : pos < text.length := by
        by_contra hge
        have : text.get? pos = none := List.get?_eq_none.2 (by omega)
        rw [this] at hd; cases hd
      split at h <;> simp at h; omega
    · simp at h
  | clsR p =>
    intro pos e hp h
    rw [ends] at h
    split at h
    · next d hd =>
      have hlt : pos < text.length := by
        by_contra hge
        have : text.get? pos = none := List.get?_eq_none.2 (by omega)
        rw [this] at hd; cases hd
      split at h <;> simp at h; omega
    · simp at h
  | seqR a b iha ihb =>
    intro pos e hp h
    rw [ends] at h
    rw [List.mem_flatMap] at h
    obtain ⟨m, hm, he⟩ := h
    exact ihb m e (iha pos m hp hm) he
  | altR a b iha ihb =>
    intro pos e hp h
    rw [ends] at h
    rcases List.mem_append.1 h with h | h
    · exact iha pos e hp h
    · exact ihb pos e hp h
  | optR a iha =>
    intro pos e hp h
    rw [ends] at h
    rcases List.mem_append.1 h with h | h
    · exact iha pos e hp h
    · simp at h; omega
  | repR p lo hi =>
    intro pos e hp h
    rw [ends] at h
    have hrun := clsRun_le p text pos
    split at h
    · simp at h
    · simp only [List.mem_map, List.mem_range] at h
      obtain ⟨i, _, rfl⟩ := h
      have : min (clsRun p text pos) hi ≤ clsRun p text pos := Nat.min_le_left _ _
      omega
  | starR p =>
    intro pos e hp h
    rw [ends] at h
    have hrun := clsRun_le p text pos
    simp only [List.mem_map, List.mem_range] at h
    obtain ⟨i, _, rfl⟩ := h
    omega
  | plusR p =>
    intro pos e hp h
    rw [ends] at h
    have hrun := clsRun_le p text pos
    split at h
    · simp at h
    · simp only [List.mem_map, List.mem_range] at h
      obtain ⟨i, _, rfl⟩ := h
      omega
  | wbR =>
    intro pos e hp h
    rw [ends] at h
    split at h <;> simp at h; omega

theorem mem_of_head?_eq {α : Type} {l : List α} {e : α} (h : l.head? = some e) :
    e ∈ l := by
  cases l <;> simp_all

theorem firstEnd_bounds (ci : Bool) (r : Rx) (text : List Char) (pos e : Nat)
    (hp : pos ≤ text.length) (h : firstEnd ci r text pos = some e) :
    pos ≤ e ∧ e ≤ text.length :=
  ⟨ends_ge ci text r pos e (mem_of_head?_eq h),
   ends_le ci text r pos e hp (mem_of_head?_eq h)⟩

theorem findIterAux_mem (ci : Bool) (r : Rx) (text : List Char) :
    ∀ (fuel pos s e : Nat), (s, e) ∈ findIterAux ci r text fuel pos →
      pos ≤ s ∧ s ≤ text.length ∧ firstEnd ci r text s = some e := by
  intro fuel
  induction fuel with
  | zero => intro pos s e h; rw [findIterAux] at h; simp at h
  | succ n ih =>
    intro pos s e h
    rw [findIterAux] at h
    split at h
    · simp at h
    · next hp =>
      cases hfe : firstEnd ci r text pos with
      | some e0 =>
        simp only [hfe] at h
        rcases List.mem_cons.1 h with heq | h
        · injection heq with h1 h2
          subst h1
          subst h2
          exact ⟨le_refl _, by omega, hfe⟩
        · obtain ⟨h1, h2, h3⟩ := ih _ s e h
          refine ⟨?_, h2, h3⟩
          split at h1 <;> omega
      | none =>
        simp only [hfe] at h
        obtain ⟨h1, h2, h3⟩ := ih _ s e h
        exact ⟨by omega, h2, h3⟩

theorem mem_findIter (ci : Bool) (r : Rx) (text : List Char) (s e : Nat)
    (h : (s, e) ∈ findIter ci r text) :
    s ≤ text.length ∧ s ≤ e ∧ e ≤ text.length := by
  obtain ⟨_, h2, h3⟩ := findIterAux_mem ci r text _ 0 s e h
  obtain ⟨h4, h5⟩ := firstEnd_bounds ci r text s e h2 h3
  exact ⟨h2, h4, h5⟩

theorem ScanSpec.weaken {ci : Bool} {r : Rx} {text : List Char} {pos : Nat}
    {l : List (Nat × Nat)} (h : ScanSpec ci r text (pos + 1) l)
    (h0 : firstEnd ci r text pos = none) : ScanSpec ci r text pos l := by
  cases h with
  | nil _ hnm =>
    refine .nil pos (fun p hp hp2 => ?_)
    rcases Nat.lt_or_ge p (pos + 1) with hlt | hge
    · have hpp : p = pos := by omega
      rw [hpp]; exact h0
    · exact hnm p hge hp2
  | cons _ s e rest hle hsl hfe hnm hrest =>
    refine .cons pos s e rest (by omega) hsl hfe (fun p hp hp2 => ?_) hrest
    rcases Nat.lt_or_ge p (pos + 1) with hlt | hge
    · have hpp : p = pos := by omega
      rw [hpp]; exact h0
    · exact hnm p hge hp2

theorem findIterAux_scanSpec (ci : Bool) (r : Rx) (text : List Char) :
    ∀ (fuel pos : Nat), text.length + 1 ≤ pos + fuel →
      ScanSpec ci r text pos (findIterAux ci r text fuel pos) := by
  intro fuel
  induction fuel with
  | zero =>
    intro pos h
    rw [findIterAux]
    exact .nil pos (fun p hp hp2 => by omega)
  | succ n ih =>
    intro pos h
    rw [findIterAux]
    split
    · next hp => exact .nil pos (fun p hp1 hp2 => by omega)
    · next hp =>
      cases hfe : firstEnd ci r text pos with
      | some e =>
        simp only [hfe]
        have hnext : ScanSpec ci r text (if pos < e then e else pos + 1)
            (findIterAux ci r text n (if pos < e then e else pos + 1)) := by
          refine ih _ ?_
          split <;> omega
        exact .cons pos pos e _ (le_refl pos) (by omega) hfe
          (fun p hp1 hp2 => by omega) hnext
      | none =>
        simp only [hfe]
        exact ScanSpec.weaken (ih (pos + 1) (by omega)) hfe

/-- Scanning via `findIter` satisfies the leftmost/non-overlapping scan specification. -/
theorem findIter_scanSpec (ci : Bool) (r : Rx) (text : List Char) :
    ScanSpec ci r text 0 (findIter ci r text) :=
  findIterAux_scanSpec ci r text (text.length + 2) 0 (by omega)

/-- The append-accumulating loops of the extractors, normalized: folding
from `init` is `init` followed by folding from `[]`. -/
theorem foldl_append_eq {α β : Type} (f : β → List α) :
    ∀ (l : List β) (init : List α),
      l.foldl (fun acc b => acc ++ f b) init =
        init ++ l.foldl (fun acc b => acc ++ f b) [] := by
  intro l
  induction l with
  | nil => intro init; simp
  | cons b bs ih =>
    intro init
    simp only [List.foldl_cons]
    rw [ih (init ++ f b), ih ([] ++ f b)]
    simp [List.append_assoc]

/-- The append-accumulating loop from `[]` is `flatMap`. -/
theorem foldl_append_eq_flatMap {α β : Type} (f : β → List α) (l : List β) :
    l.foldl (fun acc b => acc ++ f b) [] = l.flatMap f := by
  induction l with
  | nil => simp
  | cons b bs ih =>
    simp only [List.foldl_cons, List.flatMap_cons]
    rw [foldl_append_eq f bs ([] ++ f b)]
    simp [ih]

/-- The heuristic-tier loop only ever appends: its result is the initial
list followed by a sublist of the (kept) candidate entities, in candidate
order. -/
theorem foldl_heurStep_split :
    ∀ (cands : List (String × Nat × Nat)) (acc : List EntOcc),
      ∃ rest, cands.foldl heurStep acc = acc ++ rest ∧
        List.Sublist rest (cands.map mkHeurEnt) := by
  intro cands
  induction cands with
  | nil => intro acc; exact ⟨[], by simp, List.nil_sublist _⟩
  | cons c cs ih =>
    intro acc
    simp only [List.foldl_cons, List.map_cons]
    by_cases hc : c.1 ∈ skipWords ∨ ∃ ent ∈ acc, pyLower ent.text = pyLower c.1
    · obtain ⟨rest, h1, h2⟩ := ih acc
      refine ⟨rest, ?_, h2.cons _⟩
      rw [heurStep, if_pos hc]
      exact h1
    · obtain ⟨rest, h1, h2⟩ := ih (acc ++ [mkHeurEnt c])
      refine ⟨mkHeurEnt c :: rest, ?_, h2.cons₂ _⟩
      rw [heurStep, if_neg hc, h1, List.append_assoc]
      rfl

/-- Every element of the heuristic fold's output is either from the
initial list or the entity of one of the candidates. -/
theorem mem_foldl_heurStep {x : EntOcc} {cands : List (String × Nat × Nat)}
    {acc : List EntOcc} (h : x ∈ cands.foldl heurStep acc) :
    x ∈ acc ∨ ∃ c ∈ cands, x = mkHeurEnt c := by
  obtain ⟨rest, h1, h2⟩ := foldl_heurStep_split cands acc
  rw [h1] at h
  rcases List.mem_append.1 h with h | h
  · exact .inl h
  · right
    obtain ⟨c, hc, rfl⟩ := List.mem_map.1 (h2.subset h)
    exact ⟨c, hc, rfl⟩

theorem dedupFirst_go_spec :
    ∀ (l seen : List String), (dedupFirst.go seen l).Nodup ∧
      ∀ a, a ∈ dedupFirst.go seen l ↔ a ∈ l ∧ a ∉ seen := by
  intro l
  induction l with
  | nil => intro seen; simp [dedupFirst.go]
  | cons x xs ih =>
    intro seen
    rw [dedupFirst.go]
    split
    · next hx =>
      obtain ⟨ih1, ih2⟩ := ih seen
      refine ⟨ih1, fun a => ?_⟩
      rw [ih2 a]
      constructor
      · rintro ⟨h1, h2⟩; exact ⟨List.mem_cons_of_mem _ h1, h2⟩
      · rintro ⟨h1, h2⟩
        rcases List.mem_cons.1 h1 with rfl | h1
        · exact absurd hx h2
        · exact ⟨h1, h2⟩
    · next hx =>
      obtain ⟨ih1, ih2⟩ := ih (x :: seen)
      constructor
      · refine List.nodup_cons.2 ⟨fun hmem => ?_, ih1⟩
        have := (ih2 x).1 hmem
        exact this.2 (List.mem_cons_self x seen)
      · intro a
        rw [List.mem_cons, ih2 a]
        constructor
        · rintro (rfl | ⟨h1, h2⟩)
          · exact ⟨List.mem_cons_self _ _, hx⟩
          · refine ⟨List.mem_cons_of_mem _ h1, fun hs => h2 (List.mem_cons_of_mem _ hs)⟩
        · rintro ⟨h1, h2⟩
          by_cases hax : a = x
          · exact .inl hax
          · right
            rcases List.mem_cons.1 h1 with rfl | h1
            · exact absurd rfl hax
            · refine ⟨h1, fun hs => ?_⟩
              rcases List.mem_cons.1 hs with rfl | hs
              · exact hax rfl
              · exact h2 hs

/-- Function `dedupFirst` is a valid realization of Python's `list(set(·))`. -/
theorem dedupFirst_pySet : PySetFun dedupFirst := by
  intro xs
  obtain ⟨h1, h2⟩ := dedupFirst_go_spec xs []
  refine ⟨h1, fun a => ?_⟩
  rw [dedupFirst, h2 a]
  simp

/-- Function `revDedup` is also a valid realization of Python's `list(set(·))`. -/
theorem revDedup_pySet : PySetFun revDedup := by
  intro xs
  obtain ⟨h1, h2⟩ := dedupFirst_pySet xs
  refine ⟨by simpa [revDedup] using h1, fun a => ?_⟩
  rw [revDedup, List.mem_reverse]
  exact h2 a

/-- On non-blank input, `analyze_commentary` is the formatter mapped over
the correlator's records. -/
theorem analyzeEn_nonblank (f : List String → List String) (text : String)
    (h : (pyStrip text.data).isEmpty = false) :
    analyzeEn f text = (analysisResultsEn text).map (formatRow f) := by
  unfold analyzeEn
  rw [h]
  simp

/-- Offsets of a known-name occurrence are in bounds. -/
theorem bounds_of_mem_nameOccs {label : String} {text : List Char} {n : String}
    {ent : EntOcc} (h : ent ∈ nameOccs label text n) :
    ent.start ≤ ent.endPos ∧ ent.endPos ≤ text.length := by
  rw [nameOccs] at h
  obtain ⟨⟨s, e⟩, hse, rfl⟩ := List.mem_map.1 h
  have := mem_findIter true (namePat n) text s e hse
  exact ⟨this.2.1, this.2.2⟩

/-- Offsets of a heuristic candidate are in bounds. -/
theorem bounds_of_mem_heurCands {text : List Char} {c : String × Nat × Nat}
    (h : c ∈ heurCands text) : c.2.1 ≤ c.2.2 ∧ c.2.2 ≤ text.length := by
  rw [heurCands] at h
  obtain ⟨⟨s, e⟩, hse, rfl⟩ := List.mem_map.1 h
  have := mem_findIter false heurPat text s e hse
  exact ⟨this.2.1, this.2.2⟩

set_option maxRecDepth 1000000 in
/-- The pipeline's aggregated records for the end-to-end English input. -/
theorem c1_results : analysisResultsEn c1Text = [c1r1, c1r2] := by rfl

/-- The pipeline's aggregated records for `c2Text`. -/
theorem c2_results : analysisResultsEn c2Text = [c2Result] := by rfl

/-! ## The claims -/

/-- C3 (confirmed): for every text, `extract_timestamps` is the
concatenation — grouped by pattern, in declaration order MM:SS, HH:MM:SS,
N-apostrophe, N-min, not globally sorted by offset — of each pattern's
leftmost non-overlapping matches in text order (`ScanSpec`), and the
correlator iterates timestamps in exactly this extracted order. -/
theorem c3_timestamp_order (text : List Char) :
    extract_timestamps text =
      (findIter true tsPat1 text).map (tsOccOf text) ++
      (findIter true tsPat2 text).map (tsOccOf text) ++
      (findIter true tsPat3 text).map (tsOccOf text) ++
      (findIter true tsPat4 text).map (tsOccOf text) ∧
    (∀ r ∈ timestamp_patterns, ScanSpec true r text 0 (findIter true r text)) ∧
    (∀ (tss : List TsOcc) (evs : List EvOcc) (ens : List EntOcc) (w : Nat),
       (find_nearby_elements tss evs ens text w).map (·.timestamp) = tss.map (·.raw)) := by
  refine ⟨?_, fun r _ => findIter_scanSpec true r text, fun tss evs ens w => ?_⟩
  · rw [extract_timestamps, timestamp_patterns]
    simp [List.append_assoc]
  · rw [find_nearby_elements, List.map_map]
    rfl

/-- Witness for C3: the third (minute-apostrophe) pattern's scan on the
end-to-end input satisfies the leftmost non-overlapping specification. -/
theorem c3_timestamp_order_witness :
    ScanSpec true tsPat3 c1Text.data 0 (findIter true tsPat3 c1Text.data) :=
  (c3_timestamp_order c1Text.data).2.1 tsPat3 (by simp [timestamp_patterns])

/-- C4 (confirmed): the correlator maps `nearbyFor` over the timestamps,
and an event (likewise an entity) is associated with a timestamp `t` iff
`|start - t.start| <= window` or `|end - t.end| <= window`; concretely,
with window 50 an event starting exactly 50 characters before `t.start`
is included and one 51 before (whose end comparison also fails) is not. -/
theorem c4_window_iff :
    (∀ (tss : List TsOcc) (evs : List EvOcc) (ens : List EntOcc)
       (text : List Char) (w : Nat),
       find_nearby_elements tss evs ens text w = tss.map (nearbyFor evs ens text w)) ∧
    (∀ (evs : List EvOcc) (ens : List EntOcc) (text : List Char) (w : Nat)
       (t : TsOcc) (ev : EvOcc),
       ev ∈ (nearbyFor evs ens text w t).events ↔
         ev ∈ evs ∧ (pyDist ev.start t.start ≤ w ∨ pyDist ev.endPos t.endPos ≤ w)) ∧
    (∀ (evs : List EvOcc) (ens : List EntOcc) (text : List Char) (w : Nat)
       (t : TsOcc) (ent : EntOcc),
       ent ∈ (nearbyFor evs ens text w t).entities ↔
         ent ∈ ens ∧ (pyDist ent.start t.start ≤ w ∨ pyDist ent.endPos t.endPos ≤ w)) ∧
    evAt50 ∈ (nearbyFor [evAt50, evAt49] [] [] 50 tsAt100).events ∧
    evAt49 ∉ (nearbyFor [evAt50, evAt49] [] [] 50 tsAt100).events := by
  refine ⟨fun tss evs ens text w => rfl, ?_, ?_, by decide, by decide⟩
  · intro evs ens text w t ev
    simp [nearbyFor, List.mem_filter]
  · intro evs ens text w t ent
    simp [nearbyFor, List.mem_filter]

/-- C7 (confirmed): blank input short-circuits `analyze_commentary` to
the empty result (no error). -/
theorem c7_blank_input (f : List String → List String) (text : String)
    (h : pyStrip text.data = []) : analyzeEn f text = [] := by
  unfold analyzeEn
  rw [h]
  simp

/-- Witness for C7: the empty and a whitespace-only input give `[]`. -/
theorem c7_blank_input_witness :
    analyzeEn dedupFirst "" = [] ∧ analyzeEn dedupFirst "  \n " = [] :=
  ⟨c7_blank_input dedupFirst "" (by decide), c7_blank_input dedupFirst "  \n " (by decide)⟩

/-- Counterexample to C1: on the end-to-end English input the first
entry's matched event types are three `goal` occurrences only and its only
nearby entity is `Messi` — `assist` (offsets 56-62) and `Neymar` (68-74)
are farther than 50 characters from the `23'` timestamp (offsets 0-3), so
no realization of the tag set can include them, contradicting the claimed
first entry. -/
theorem c1_counterexample :
    (analysisResultsEn c1Text).map (fun r => r.events.map (·.type)) =
      [["goal", "goal", "goal"], ["goal", "assist", "yellow_card"]] ∧
    (analysisResultsEn c1Text).map (fun r => r.entities.map (·.text)) =
      [["Messi"], ["Neymar", "Ramos", "Yellow", "Sergio Ramos"]] ∧
    (analysisResultsEn c1Text).map (·.timestamp) = ["23\x27", "45\x27"] := by
  refine ⟨?_, ?_, ?_⟩ <;> rw [c1_results] <;> rfl

/-- C1 (amended): the analyzer returns exactly two entries; the first for
`23'` has tags goal and player Messi only (assist and Neymar lie beyond
the 50-character window), the second for `45'` has tags goal, assist,
yellow_card and players Neymar, Ramos, Yellow, Sergio Ramos — in
particular it includes `yellow_card` and `Sergio Ramos` as claimed.  The
formatted rows are shown for the first-appearance set ordering. -/
theorem c1_amended :
    analysisResultsEn c1Text = [c1r1, c1r2] ∧
    analyzeEn dedupFirst c1Text =
      [⟨"23\x27", "goal, Messi", c1r1.context⟩,
       ⟨"45\x27", "goal, assist, yellow_card, Neymar, Ramos, Yellow, Sergio Ramos",
        c1r2.context⟩] := by
  refine ⟨c1_results, ?_⟩
  rw [analyzeEn_nonblank dedupFirst c1Text (by rfl), c1_results]
  rfl

/-- Counterexample to C2: `revDedup` is an admissible realization of
Python's (hash-ordered, insertion-order-oblivious) `list(set(·))` — see
`revDedup_pySet` — yet under it the entry for `c2Text` gets event tags
`shot, goal` while the matched occurrences' insertion order is
goal-then-shot; so the produced tag order is not the claimed
first-appearance order. -/
theorem c2_counterexample :
    analyzeEn revDedup c2Text = [⟨"23\x27", "shot, goal", "23\x27 goal shot"⟩] ∧
    c2Result.events.map (·.type) = ["goal", "shot"] ∧
    analysisResultsEn c2Text = [c2Result] := by
  refine ⟨?_, rfl, c2_results⟩
  rw [analyzeEn_nonblank revDedup c2Text (by rfl), c2_results]
  rfl

/-- C2 (amended): for every admissible `list(set(·))` ordering, every
entry's event-tag list holds each matched event type exactly once
(`Nodup` plus membership iff some matched occurrence has that type), and
the tags are event types, then players, then teams; the order within the
event-tag list is the set-iteration order, which need not be insertion
order. -/
theorem c2_amended (f : List String → List String) (hf : PySetFun f)
    (text : String) (r : NearbyResult) (_hr : r ∈ analysisResultsEn text) :
    (eventTypesOf f r).Nodup ∧
    (∀ a, a ∈ eventTypesOf f r ↔ ∃ ev ∈ r.events, ev.type = a) ∧
    tagsOf f r = eventTypesOf f r ++ playerNamesOf r ++ teamNamesOf r := by
  refine ⟨(hf _).1, fun a => ?_, rfl⟩
  rw [eventTypesOf, (hf _).2 a]
  exact List.mem_map

/-- Witness for C2 (amended), at the concrete record of `c2Text` with the
first-appearance ordering. -/
theorem c2_amended_witness : (eventTypesOf dedupFirst c2Result).Nodup :=
  (c2_amended dedupFirst dedupFirst_pySet c2Text c2Result
    (by rw [c2_results]; exact List.mem_singleton_self _)).1

/-- C5 (confirmed): a tier-3 candidate that passed the stop-list is
discarded iff some already-collected occurrence has case-insensitively
equal text (offsets are not compared), while the known-name tiers emit
one occurrence per match offset; on the de-duplication scenario input the
known-player tier yields exactly the two `Messi` occurrences at distinct
offsets and the heuristic tier adds no third (only the unrelated
`Later`). -/
theorem c5_entity_dedup :
    (∀ (acc : List EntOcc) (name : String) (s e : Nat), name ∉ skipWords →
       (heurStep acc (name, s, e) = acc ↔
         ∃ ent ∈ acc, pyLower ent.text = pyLower name) ∧
       (heurStep acc (name, s, e) = acc ∨
         heurStep acc (name, s, e) = acc ++ [⟨name, "PERSON", s, e⟩])) ∧
    extract_players_and_entities common_player_names_en team_names_en messiText.data =
      [⟨"Messi", "PERSON", 0, 5⟩, ⟨"Messi", "PERSON", 21, 26⟩,
       ⟨"Later", "PERSON", 14, 19⟩] := by
  constructor
  · intro acc name s e hname
    constructor
    · constructor
      · intro heq
        unfold heurStep at heq
        split at heq
        · next hcond =>
          rcases hcond with hin | hex
          · exact absurd hin hname
          · exact hex
        · exact absurd (congrArg List.length heq) (by simp)
      · intro hex
        unfold heurStep
        rw [if_pos (Or.inr hex)]
    · unfold heurStep
      split
      · exact .inl rfl
      · exact .inr rfl
  · rfl

/-- Witness for C5: with `Messi` already collected at offsets 0-5, the
heuristic candidate `Messi` at offsets 21-26 is discarded. -/
theorem c5_entity_dedup_witness :
    heurStep [⟨"Messi", "PERSON", 0, 5⟩] ("Messi", 21, 26) =
      [⟨"Messi", "PERSON", 0, 5⟩] :=
  ((c5_entity_dedup.1 [⟨"Messi", "PERSON", 0, 5⟩] "Messi" 21 26 (by decide)).1).mpr
    ⟨⟨"Messi", "PERSON", 0, 5⟩, List.mem_singleton_self _, rfl⟩

/-- C6 (confirmed): every occurrence any of the three extractors returns
satisfies `0 <= start <= end <= len(text)` (offsets are naturals, so the
lower bound is by construction). -/
theorem c6_offset_bounds (text : String) :
    (∀ t ∈ extract_timestamps text.data,
       0 ≤ t.start ∧ t.start ≤ t.endPos ∧ t.endPos ≤ text.data.length) ∧
    (∀ ev ∈ extract_events event_patterns_en text.data,
       0 ≤ ev.start ∧ ev.start ≤ ev.endPos ∧ ev.endPos ≤ text.data.length) ∧
    (∀ ent ∈ extract_players_and_entities common_player_names_en team_names_en text.data,
       0 ≤ ent.start ∧ ent.start ≤ ent.endPos ∧ ent.endPos ≤ text.data.length) := by
  refine ⟨?_, ?_, ?_⟩
  · intro t ht
    rw [extract_timestamps, foldl_append_eq_flatMap] at ht
    obtain ⟨r, _, ht⟩ := List.mem_flatMap.1 ht
    obtain ⟨⟨s, e⟩, hse, rfl⟩ := List.mem_map.1 ht
    have := mem_findIter true r text.data s e hse
    exact ⟨Nat.zero_le _, this.2.1, this.2.2⟩
  · intro ev hev
    rw [extract_events, foldl_append_eq_flatMap] at hev
    obtain ⟨p, _, hev⟩ := List.mem_flatMap.1 hev
    obtain ⟨⟨s, e⟩, hse, rfl⟩ := List.mem_map.1 hev
    have := mem_findIter true p.2 text.data s e hse
    exact ⟨Nat.zero_le _, this.2.1, this.2.2⟩
  · intro ent hent
    unfold extract_players_and_entities at hent
    rcases mem_foldl_heurStep hent with hb | ⟨c, hc, rfl⟩
    · rw [foldl_append_eq (nameOccs "ORG" text.data)] at hb
      rcases List.mem_append.1 hb with hb | hb
      · rw [foldl_append_eq_flatMap] at hb
        obtain ⟨n, _, hb⟩ := List.mem_flatMap.1 hb
        have := bounds_of_mem_nameOccs hb
        exact ⟨Nat.zero_le _, this.1, this.2⟩
      · rw [foldl_append_eq_flatMap] at hb
        obtain ⟨n, _, hb⟩ := List.mem_flatMap.1 hb
        have := bounds_of_mem_nameOccs hb
        exact ⟨Nat.zero_le _, this.1, this.2⟩
    · have := bounds_of_mem_heurCands hc
      exact ⟨Nat.zero_le _, this.1, this.2⟩

/-- Witness for C6, at the first timestamp occurrence of the end-to-end
input. -/
theorem c6_offset_bounds_witness :
    0 ≤ (⟨"23\x27", 0, 3⟩ : TsOcc).start ∧
      (⟨"23\x27", 0, 3⟩ : TsOcc).start ≤ (⟨"23\x27", 0, 3⟩ : TsOcc).endPos ∧
      (⟨"23\x27", 0, 3⟩ : TsOcc).endPos ≤ c1Text.data.length :=
  (c6_offset_bounds c1Text).1 ⟨"23\x27", 0, 3⟩ (by decide)

/-- C8 (confirmed): the formatter produces, for every entry, `Tags` equal
to the spec's clause (`specRowTags`: comma-joined event tags, then player
names, then team names, or the literal "General mention" when that
concatenation is empty) and `Context` equal to the spec's clause
(`specTruncate`: unchanged when at most 100 characters, else the first
100 characters with a trailing ellipsis marker); every row the analyzer
emits is the formatted image of one aggregated record. -/
theorem c8_formatter :
    (∀ (f : List String → List String) (r : NearbyResult),
       (formatRow f r).Time = r.timestamp ∧
       (formatRow f r).Tags = specRowTags (eventTypesOf f r) (playerNamesOf r) (teamNamesOf r) ∧
       (formatRow f r).Context = specTruncate r.context) ∧
    (∀ (f : List String → List String) (text : String) (row : Row),
       row ∈ analyzeEn f text → ∃ r ∈ analysisResultsEn text, row = formatRow f r) := by
  constructor
  · intro f r
    refine ⟨rfl, ?_, ?_⟩
    · show (if (tagsOf f r).isEmpty then "General mention"
            else String.intercalate ", " (tagsOf f r)) = _
      rw [specRowTags]
      simp only [tagsOf, List.isEmpty_iff]
    · show (if r.context.length > 100 then String.mk (r.context.data.take 100) ++ "..."
            else r.context) = _
      rw [specTruncate]
      by_cases h : r.context.length ≤ 100
      · rw [if_neg (by omega), if_pos h]
      · rw [if_pos (by omega), if_neg h]
  · intro f text row hrow
    cases hb : (pyStrip text.data).isEmpty with
    | true =>
      rw [analyzeEn, if_pos hb] at hrow
      exact absurd hrow (List.not_mem_nil row)
    | false =>
      rw [analyzeEn_nonblank f text hb] at hrow
      obtain ⟨r, hr, heq⟩ := List.mem_map.1 hrow
      exact ⟨r, hr, heq.symm⟩

/-- Witness for C8: the row for input "1:23" (no nearby events or
entities, hence the "General mention" literal) is the formatted image of
the single aggregated record. -/
theorem c8_formatter_witness :
    ∃ r ∈ analysisResultsEn "1:23",
      (⟨"1:23", "General mention", "1:23"⟩ : Row) = formatRow dedupFirst r :=
  c8_formatter.2 dedupFirst "1:23" ⟨"1:23", "General mention", "1:23"⟩ (by decide)

/-- C9 (confirmed): the entity output is tier-grouped — all known-player
occurrences first, in profile-list order with each name's matches in text
order (`ScanSpec`), then all known-team occurrences likewise, then the
kept heuristic entities as a sublist of the heuristic candidates in text
order; consequently, for "45' Neymar passes to Messi" the entry's player
list is `[Messi, Neymar]` (profile order), not mention order. -/
theorem c9_entity_tier_order :
    (∀ text : List Char, ∃ heurPart : List EntOcc,
       extract_players_and_entities common_player_names_en team_names_en text =
         common_player_names_en.flatMap (nameOccs "PERSON" text) ++
         team_names_en.flatMap (nameOccs "ORG" text) ++ heurPart ∧
       List.Sublist heurPart ((heurCands text).map mkHeurEnt)) ∧
    (∀ (text : List Char) (n : String),
       ScanSpec true (namePat n) text 0 (findIter true (namePat n) text)) ∧
    (analysisResultsEn "45\x27 Neymar passes to Messi").map playerNamesOf =
      [["Messi", "Neymar"]] := by
  refine ⟨?_, fun text n => findIter_scanSpec true (namePat n) text, by rfl⟩
  intro text
  obtain ⟨rest, h1, h2⟩ := foldl_heurStep_split (heurCands text)
    (team_names_en.foldl (fun acc n => acc ++ nameOccs "ORG" text n)
      (common_player_names_en.foldl (fun acc n => acc ++ nameOccs "PERSON" text n) []))
  refine ⟨rest, ?_, h2⟩
  unfold extract_players_and_entities
  rw [h1, foldl_append_eq (nameOccs "ORG" text),
    foldl_append_eq_flatMap (nameOccs "PERSON" text),
    foldl_append_eq_flatMap (nameOccs "ORG" text)]

/-- Counterexample to C10: in "1:23:45:67:89:01" the span `67:89:01` at
offsets 8-16 is a word-bounded HH:MM:SS token and is returned by the
HH:MM:SS pattern, but the MM:SS pattern's non-overlapping scan (already
desynchronized to `45:67`, `89:01`) never yields its HH:MM prefix
`67:89` at offsets 8-13, so the extractor does not return the claimed
pair of occurrences covering it. -/
theorem c10_counterexample :
    extract_timestamps c10Text.data =
      [⟨"1:23", 0, 4⟩, ⟨"45:67", 5, 10⟩, ⟨"89:01", 11, 16⟩,
       ⟨"1:23:45", 0, 7⟩, ⟨"67:89:01", 8, 16⟩] ∧
    (⟨"67:89:01", 8, 16⟩ : TsOcc) ∈ extract_timestamps c10Text.data ∧
    (⟨"67:89", 8, 13⟩ : TsOcc) ∉ extract_timestamps c10Text.data := by
  have h : extract_timestamps c10Text.data =
      [⟨"1:23", 0, 4⟩, ⟨"45:67", 5, 10⟩, ⟨"89:01", 11, 16⟩,
       ⟨"1:23:45", 0, 7⟩, ⟨"67:89:01", 8, 16⟩] := by rfl
  refine ⟨h, ?_, ?_⟩ <;> rw [h] <;> decide

/-- C10 (amended): when an isolated word-bounded HH:MM:SS token occurs —
as in the input "1:23:45" — the extractor returns both the MM:SS match on
its HH:MM prefix and the HH:MM:SS match on the full form, and the
analyzer emits one timeline entry per returned occurrence (in general the
correlator emits exactly one record per timestamp occurrence); with
overlapping colon-separated digit groups the per-pattern scans can
desynchronize and the prefix occurrence is absent. -/
theorem c10_amended :
    extract_timestamps "1:23:45".data = [⟨"1:23", 0, 4⟩, ⟨"1:23:45", 0, 7⟩] ∧
    (analysisResultsEn "1:23:45").map (·.timestamp) = ["1:23", "1:23:45"] ∧
    (∀ (tss : List TsOcc) (evs : List EvOcc) (ens : List EntOcc)
       (text : List Char) (w : Nat),
       (find_nearby_elements tss evs ens text w).length = tss.length) := by
  refine ⟨by rfl, by rfl, fun tss evs ens text w => ?_⟩
  rw [find_nearby_elements, List.length_map]

end SoccerHighlights
